import Mathlib

/-!
A formal model of the meeting-scheduling core of yaml2ical
(src/yaml2ical/meeting.py and src/yaml2ical/recurrence.py).

Calendar instants are measured in whole minutes and dates in whole days.
Day 0 of the calendar is Monday 1900-01-01, the first entry of the
source's DATES table, so the weekday index of a day number d is d % 7
with 0 = Monday, ..., 6 = Sunday, agreeing with Python's
datetime.weekday().  All instants the program manipulates are whole
minutes (times are parsed as HHMM and durations are integer minutes), so
this granularity is faithful.
-/

namespace Yaml2ical

/-- Minutes in one week (`ONE_WEEK = datetime.timedelta(weeks=1)`). -/
def ONE_WEEK : Int := 10080

/-- A time of day as parsed by `datetime.strptime(t, '%H%M')`. -/
structure TimeHM where
  hour : Nat
  minute : Nat
deriving DecidableEq

/-- The `WEEKDAYS` dict of meeting.py: weekday name to index, Monday = 0.
The `DATES` dict maps the same seven keys to the dates 1900-01-01 ..
1900-01-07, that is to day numbers 0..6 of our calendar, so this single
table serves for both dictionaries. -/
def WEEKDAYS (d : String) : Option Nat :=
  if d = "Monday" then some 0
  else if d = "Tuesday" then some 1
  else if d = "Wednesday" then some 2
  else if d = "Thursday" then some 3
  else if d = "Friday" then some 4
  else if d = "Saturday" then some 5
  else if d = "Sunday" then some 6
  else none

/-- `WEEKDAYS[d]` as a total function; meaningful only when `d` is a
valid weekday name, which construction guarantees for stored days. -/
def weekdayIndex (d : String) : Nat := (WEEKDAYS d).getD 0

/-- The `supported_frequencies` dict at the bottom of meeting.py:
only 'weekly' (interval 1) and 'biweekly' (interval 2) exist. -/
def supported_frequencies (f : String) : Option Nat :=
  if f = "weekly" then some 1 else if f = "biweekly" then some 2 else none

/-- A meeting schedule (class `Schedule`), with the fields stored by
`Schedule.__init__`.  `meeting_start` and `meeting_end` are minutes
relative to Monday 00:00 of the canonical week spanned by the DATES
table; `start_date` is a day number (the source only ever uses the date
part of that datetime). -/
structure Schedule where
  project : String
  filefrom : String
  time : TimeHM
  day : String
  irc : String
  freq : String
  freq_interval : Nat
  start_date : Nat
  duration : Int
  meeting_start : Int
  meeting_end : Int
deriving DecidableEq

/-- Lines 86-94 of `Schedule.__init__`: place the slot inside the
canonical week (`DATES[day]` combined with the parsed time, i.e. minute
`weekdayIndex day * 1440 + hour * 60 + minute`), add the duration, and
if the slot is on Sunday and its end falls on a Monday
(`meeting_end.strftime("%a") == 'Mon'`, i.e. the end's day number is
congruent to 0 mod 7, days being floor division of minutes by 1440)
shift both ends back one week. -/
def Schedule.ofFields (project filefrom : String) (time : TimeHM) (day irc freq : String)
    (freq_interval : Nat) (start_date : Nat) (duration : Int) : Schedule :=
  if day = "Sunday" ∧
      ((((weekdayIndex day : Int) * 1440 + (time.hour : Int) * 60 + (time.minute : Int)
          + duration).fdiv 1440) % 7 = 0) then
    { project := project, filefrom := filefrom, time := time, day := day, irc := irc,
      freq := freq, freq_interval := freq_interval, start_date := start_date,
      duration := duration,
      meeting_start := (weekdayIndex day : Int) * 1440 + (time.hour : Int) * 60
        + (time.minute : Int) - ONE_WEEK,
      meeting_end := (weekdayIndex day : Int) * 1440 + (time.hour : Int) * 60
        + (time.minute : Int) + duration - ONE_WEEK }
  else
    { project := project, filefrom := filefrom, time := time, day := day, irc := irc,
      freq := freq, freq_interval := freq_interval, start_date := start_date,
      duration := duration,
      meeting_start := (weekdayIndex day : Int) * 1440 + (time.hour : Int) * 60
        + (time.minute : Int),
      meeting_end := (weekdayIndex day : Int) * 1440 + (time.hour : Int) * 60
        + (time.minute : Int) + duration }

/-- The schedule mapping handed to `Schedule.__init__`.  Each field is
`none` when the key is absent from the YAML mapping; for the fields the
source pipes through a parser (strptime '%H%M' for time, strptime
'%Y%m%d' for start_date, int() for duration) the inner Option is the
parse result: `some none` means present but unparseable. -/
structure SchedYaml where
  time : Option (Option TimeHM)
  day : Option String
  irc : Option String
  frequency : Option String
  start_date : Option (Option Nat)
  duration : Option (Option Int)
deriving DecidableEq

/-- Python's `day.lower().capitalize()` (lines 52-53): lowercase every
character, then uppercase the first one.  Implemented character by
character (the day names are plain ASCII, where Python's and Lean's
per-character case maps agree). -/
def sanitizeDay (s : String) : String :=
  match s.data.map Char.toLower with
  | [] => String.mk []
  | c :: cs => String.mk (c.toUpper :: cs)

/-- The exceptions `Schedule.__init__` can raise: `keyError k` models a
KeyError whose argument is `k` (a missing mandatory field, or for an
unsupported frequency the frequency string itself); the others model the
ValueErrors raised for an unparseable time, start_date or duration and
for an unrecognized day name. -/
inductive SchedErr where
  | keyError (key : String)
  | badTime
  | badStartDate
  | badDuration
  | badDay
deriving DecidableEq

instance {ε α : Type _} [DecidableEq ε] [DecidableEq α] : DecidableEq (Except ε α) :=
  fun x y =>
    match x, y with
    | .ok a, .ok b =>
      if h : a = b then .isTrue (h ▸ rfl) else .isFalse (fun hc => h (Except.ok.inj hc))
    | .error a, .error b =>
      if h : a = b then .isTrue (h ▸ rfl) else .isFalse (fun hc => h (Except.error.inj hc))
    | .ok _, .error _ => .isFalse (fun hc => Except.noConfusion hc)
    | .error _, .ok _ => .isFalse (fun hc => Except.noConfusion hc)

/-- `Schedule.__init__` (meeting.py lines 43-94).  The order of accesses
and checks matches the source: the mandatory keys time, day, irc,
frequency in that order (time is parsed right after its key access, so
an unparseable time raises before the day access), then the frequency
lookup, then the optional start_date (default: today's date, the date of
`datetime.utcnow()`) and duration (default 60), and finally the day
validity check before the canonical-week computation `ofFields`.
The day string is sanitized with `.lower().capitalize()` first. -/
def mkSchedule (project filefrom : String) (y : SchedYaml) (today : Nat) :
    Except SchedErr Schedule :=
  match y.time with
  | none => .error (.keyError "time")
  | some none => .error .badTime
  | some (some t) =>
    match y.day with
    | none => .error (.keyError "day")
    | some day0 =>
      match y.irc with
      | none => .error (.keyError "irc")
      | some irc =>
        match y.frequency with
        | none => .error (.keyError "frequency")
        | some freq =>
          match supported_frequencies freq with
          | none => .error (.keyError freq)
          | some freq_interval =>
            match (match y.start_date with
                   | none => Except.ok today
                   | some none => Except.error SchedErr.badStartDate
                   | some (some d) => Except.ok d) with
            | .error e => .error e
            | .ok start_date =>
              match (match y.duration with
                     | none => Except.ok (60 : Int)
                     | some none => Except.error SchedErr.badDuration
                     | some (some n) => Except.ok n) with
              | .error e => .error e
              | .ok duration =>
                match WEEKDAYS (sanitizeDay day0) with
                | none => .error .badDay
                | some _ =>
                  .ok (Schedule.ofFields project filefrom t (sanitizeDay day0) irc freq
                        freq_interval start_date duration)

/-- The date computed by `Schedule.next_occurrence` (meeting.py lines
106-122): `days_ahead = WEEKDAYS[self.day] - self.start_date.weekday()`,
add 7 if negative, and add that to the anchor date. -/
def Schedule.next_occurrence_date (s : Schedule) : Nat :=
  s.start_date +
    (if (weekdayIndex s.day : Int) - ((s.start_date % 7 : Nat) : Int) < 0 then
      (weekdayIndex s.day : Int) - ((s.start_date % 7 : Nat) : Int) + 7
    else
      (weekdayIndex s.day : Int) - ((s.start_date % 7 : Nat) : Int)).toNat

/-- `Schedule.next_occurrence` as a UTC instant in minutes: the source
rebuilds the datetime from the computed date's year/month/day and the
schedule's hour and minute, with tzinfo=pytz.utc (discarding any
time-of-day the anchor datetime carried). -/
def Schedule.next_occurrence (s : Schedule) : Int :=
  (s.next_occurrence_date : Int) * 1440 + (s.time.hour : Int) * 60 + (s.time.minute : Int)

/-- `Schedule.conflicts` (meeting.py lines 96-104).  The source forms
`set([self.freq, other.freq])` and compares it with the two-element set
of 'biweekly-odd' and 'biweekly-even'; a set built from two strings
equals that set exactly when one of them is 'biweekly-odd' and the other
'biweekly-even', which is the disjunction negated below. -/
def Schedule.conflicts (self other : Schedule) : Bool :=
  (self.irc == other.irc) &&
  (decide (self.meeting_start < other.meeting_end) &&
   decide (other.meeting_start < self.meeting_end)) &&
  !((self.freq == "biweekly-odd" && other.freq == "biweekly-even") ||
    (self.freq == "biweekly-even" && other.freq == "biweekly-odd"))

/-- A materialized occurrence (class `MeetingInstance`): `end_` models
the Python attribute `end` (a Lean keyword). -/
structure MeetingInstance where
  project : String
  start : Int
  end_ : Int
deriving DecidableEq

/-- `MeetingInstance.__init__`: the end is start plus the duration in
minutes. -/
def mkMeetingInstance (project : String) (start duration : Int) : MeetingInstance :=
  { project := project, start := start, end_ := start + duration }

/-- The pairwise interval test of `check_for_meeting_conflicts` (lines
246-247): `a.start < b.end and a.end > b.start`. -/
def overlapsInst (a b : MeetingInstance) : Bool :=
  decide (a.start < b.end_) && decide (a.end_ > b.start)

/-- An online meeting (class `Meeting`), restricted to the fields the
conflict detector reads; chair, description and the extra template
fields play no part in scheduling. -/
structure Meeting where
  project : String
  schedules : List Schedule

@[simp] theorem ofFields_day (p f : String) (t : TimeHM) (day irc freq : String)
    (iv sd : Nat) (dur : Int) :
    (Schedule.ofFields p f t day irc freq iv sd dur).day = day := by
  unfold Schedule.ofFields; split <;> rfl

@[simp] theorem ofFields_freq (p f : String) (t : TimeHM) (day irc freq : String)
    (iv sd : Nat) (dur : Int) :
    (Schedule.ofFields p f t day irc freq iv sd dur).freq = freq := by
  unfold Schedule.ofFields; split <;> rfl

@[simp] theorem ofFields_freq_interval (p f : String) (t : TimeHM) (day irc freq : String)
    (iv sd : Nat) (dur : Int) :
    (Schedule.ofFields p f t day irc freq iv sd dur).freq_interval = iv := by
  unfold Schedule.ofFields; split <;> rfl

@[simp] theorem ofFields_start_date (p f : String) (t : TimeHM) (day irc freq : String)
    (iv sd : Nat) (dur : Int) :
    (Schedule.ofFields p f t day irc freq iv sd dur).start_date = sd := by
  unfold Schedule.ofFields; split <;> rfl

@[simp] theorem ofFields_duration (p f : String) (t : TimeHM) (day irc freq : String)
    (iv sd : Nat) (dur : Int) :
    (Schedule.ofFields p f t day irc freq iv sd dur).duration = dur := by
  unfold Schedule.ofFields; split <;> rfl

@[simp] theorem ofFields_time (p f : String) (t : TimeHM) (day irc freq : String)
    (iv sd : Nat) (dur : Int) :
    (Schedule.ofFields p f t day irc freq iv sd dur).time = t := by
  unfold Schedule.ofFields; split <;> rfl

@[simp] theorem ofFields_irc (p f : String) (t : TimeHM) (day irc freq : String)
    (iv sd : Nat) (dur : Int) :
    (Schedule.ofFields p f t day irc freq iv sd dur).irc = irc := by
  unfold Schedule.ofFields; split <;> rfl

@[simp] theorem ofFields_project (p f : String) (t : TimeHM) (day irc freq : String)
    (iv sd : Nat) (dur : Int) :
    (Schedule.ofFields p f t day irc freq iv sd dur).project = p := by
  unfold Schedule.ofFields; split <;> rfl

theorem WEEKDAYS_le_six (d : String) (k : Nat) (h : WEEKDAYS d = some k) : k ≤ 6 := by
  unfold WEEKDAYS at h
  split_ifs at h <;> simp at h <;> omega

/-- Any successfully constructed schedule stores a recognized day name
and a frequency whose interval came from the supported_frequencies
table. -/
theorem mkSchedule_ok_valid {p f : String} {y : SchedYaml} {today : Nat} {s : Schedule}
    (h : mkSchedule p f y today = Except.ok s) :
    (∃ w, WEEKDAYS s.day = some w) ∧
    supported_frequencies s.freq = some s.freq_interval := by
  unfold mkSchedule at h
  repeat' split at h
  any_goals simp_all
  subst h
  constructor
  · rw [ofFields_day]
    exact ⟨_, by assumption⟩
  · rw [ofFields_freq, ofFields_freq_interval]
    assumption

/-- C9: `next_occurrence` reads `self.day`, `self.start_date` and
`self.time` and writes nothing, so the model is a pure function of the
schedule and a second call on the same schedule returns the same
instant (and the same date). -/
theorem C9_next_occurrence_idempotent (s : Schedule) :
    s.next_occurrence = s.next_occurrence ∧
    s.next_occurrence_date = s.next_occurrence_date :=
  ⟨rfl, rfl⟩

/-- C4: `conflicts` returns true exactly when the two schedules share a
channel, their canonical-week intervals overlap under the half-open rule
(strict inequalities, so touching endpoints do not conflict), and the
pair of frequency names is not the alternating pair
biweekly-odd / biweekly-even. -/
theorem C4_conflicts_characterization (a b : Schedule) :
    a.conflicts b = true ↔
      (a.irc = b.irc ∧ a.meeting_start < b.meeting_end ∧ b.meeting_start < a.meeting_end ∧
       ¬ ((a.freq = "biweekly-odd" ∧ b.freq = "biweekly-even") ∨
          (a.freq = "biweekly-even" ∧ b.freq = "biweekly-odd"))) := by
  simp only [Schedule.conflicts, Bool.and_eq_true, Bool.not_eq_true', Bool.or_eq_false_iff,
    Bool.and_eq_false_iff, beq_iff_eq, beq_eq_false_iff_ne, ne_eq, decide_eq_true_eq, not_or,
    and_assoc]
  tauto

/-- C8: the same-week conflict test and the instance interval-overlap
test are both symmetric in their two arguments. -/
theorem C8_overlap_symmetric :
    (∀ a b : Schedule, a.conflicts b = b.conflicts a) ∧
    (∀ x y : MeetingInstance, overlapsInst x y = overlapsInst y x) := by
  constructor
  · intro a b
    have hb : ∀ p q : Bool, p = q ↔ ((p = true) ↔ (q = true)) := by decide
    rw [hb]
    simp only [Schedule.conflicts, Bool.and_eq_true, Bool.or_eq_true, beq_iff_eq,
      decide_eq_true_eq, Bool.not_eq_true', Bool.or_eq_false_iff, Bool.and_eq_false_iff,
      beq_eq_false_iff_ne, ne_eq]
    constructor
    · rintro ⟨⟨h1, h2, h3⟩, h4⟩
      exact ⟨⟨h1.symm, h3, h2⟩, by tauto⟩
    · rintro ⟨⟨h1, h2, h3⟩, h4⟩
      exact ⟨⟨h1.symm, h3, h2⟩, by tauto⟩
  · intro x y
    simp only [overlapsInst, gt_iff_lt]
    exact Bool.and_comm _ _

/-- C3: for a Sunday schedule whose canonical-week end lands on a Monday
(the condition the source tests with strftime), construction shifts both
`meeting_start` and `meeting_end` back by exactly one week; consequently
a Sunday 2330 meeting of 60 minutes and a Monday 0000 meeting on the
same channel conflict under the same-week test. -/
theorem C3_sunday_week_wrap (p f irc freq : String) (t : TimeHM) (iv sd : Nat) (dur : Int)
    (h : ((((weekdayIndex "Sunday" : Int) * 1440 + (t.hour : Int) * 60 + (t.minute : Int)
        + dur).fdiv 1440) % 7 = 0)) :
    ((Schedule.ofFields p f t "Sunday" irc freq iv sd dur).meeting_start
        = (weekdayIndex "Sunday" : Int) * 1440 + (t.hour : Int) * 60 + (t.minute : Int)
          - ONE_WEEK ∧
     (Schedule.ofFields p f t "Sunday" irc freq iv sd dur).meeting_end
        = (weekdayIndex "Sunday" : Int) * 1440 + (t.hour : Int) * 60 + (t.minute : Int)
          + dur - ONE_WEEK) ∧
    (Schedule.ofFields "a" "fa" (TimeHM.mk 23 30) "Sunday" "#chan" "weekly" 1 0 60).conflicts
      (Schedule.ofFields "b" "fb" (TimeHM.mk 0 0) "Monday" "#chan" "weekly" 1 0 60) = true := by
  constructor
  · rw [Schedule.ofFields, if_pos ⟨rfl, h⟩]
    exact ⟨rfl, rfl⟩
  · decide

/-- Witness for C3 at the spec's concrete inputs: Sunday 2330 with a
60-minute duration wraps to the interval [-30, 30) relative to Monday
00:00 of the canonical week, and conflicts with Monday 0000. -/
theorem C3_sunday_week_wrap_witness :
    ((Schedule.ofFields "a" "fa" (TimeHM.mk 23 30) "Sunday" "#chan" "weekly" 1 0
        60).meeting_start
        = (weekdayIndex "Sunday" : Int) * 1440 + ((23 : Nat) : Int) * 60 + ((30 : Nat) : Int)
          - ONE_WEEK ∧
     (Schedule.ofFields "a" "fa" (TimeHM.mk 23 30) "Sunday" "#chan" "weekly" 1 0
        60).meeting_end
        = (weekdayIndex "Sunday" : Int) * 1440 + ((23 : Nat) : Int) * 60 + ((30 : Nat) : Int)
          + 60 - ONE_WEEK) ∧
    (Schedule.ofFields "a" "fa" (TimeHM.mk 23 30) "Sunday" "#chan" "weekly" 1 0 60).conflicts
      (Schedule.ofFields "b" "fb" (TimeHM.mk 0 0) "Monday" "#chan" "weekly" 1 0 60) = true :=
  C3_sunday_week_wrap "a" "fa" "#chan" "weekly" (TimeHM.mk 23 30) 1 0 60 (by decide)

/-- A concrete valid schedule record shared by several witnesses below:
weekly Monday 10:00 on channel c, anchored at day 3 (a Thursday). -/
def sampleYamlWeekly : SchedYaml :=
  SchedYaml.mk (some (some (TimeHM.mk 10 0))) (some "monday") (some "#c")
    (some "weekly") none none

/-- The schedule mkSchedule builds from `sampleYamlWeekly` with today = 3. -/
def sampleSchedWeekly : Schedule :=
  Schedule.ofFields "p" "f" (TimeHM.mk 10 0) "Monday" "#c" "weekly" 1 3 60

/-- C2: for a successfully constructed schedule, the date returned by
`next_occurrence` falls on the schedule's weekday, is never before the
anchor date and is within 7 days of it, equals the anchor date exactly
when the anchor already falls on that weekday, and the returned instant
is that date at the schedule's time of day (in UTC, the only timezone the
model carries). -/
theorem C2_next_occurrence (p f : String) (y : SchedYaml) (today : Nat) (s : Schedule)
    (h : mkSchedule p f y today = Except.ok s) :
    s.next_occurrence_date % 7 = weekdayIndex s.day ∧
    s.start_date ≤ s.next_occurrence_date ∧
    s.next_occurrence_date ≤ s.start_date + 7 ∧
    (s.next_occurrence_date = s.start_date ↔ s.start_date % 7 = weekdayIndex s.day) ∧
    s.next_occurrence = (s.next_occurrence_date : Int) * 1440 + (s.time.hour : Int) * 60
      + (s.time.minute : Int) := by
  obtain ⟨⟨w, hw⟩, -⟩ := mkSchedule_ok_valid h
  have hw6 : weekdayIndex s.day ≤ 6 := by
    rw [weekdayIndex, hw]
    exact WEEKDAYS_le_six s.day w hw
  refine ⟨?_, ?_, ?_, ?_, rfl⟩ <;>
    (unfold Schedule.next_occurrence_date; split_ifs <;> omega)

/-- Witness for C2 at a concrete schedule: weekly Monday 10:00 anchored
at day 3 (a Thursday); the next occurrence is day 7, the following
Monday. -/
theorem C2_next_occurrence_witness :
    sampleSchedWeekly.next_occurrence_date % 7 = weekdayIndex sampleSchedWeekly.day ∧
    sampleSchedWeekly.start_date ≤ sampleSchedWeekly.next_occurrence_date ∧
    sampleSchedWeekly.next_occurrence_date ≤ sampleSchedWeekly.start_date + 7 ∧
    (sampleSchedWeekly.next_occurrence_date = sampleSchedWeekly.start_date ↔
      sampleSchedWeekly.start_date % 7 = weekdayIndex sampleSchedWeekly.day) ∧
    sampleSchedWeekly.next_occurrence
      = (sampleSchedWeekly.next_occurrence_date : Int) * 1440
        + (sampleSchedWeekly.time.hour : Int) * 60 + (sampleSchedWeekly.time.minute : Int) :=
  C2_next_occurrence "p" "f" sampleYamlWeekly 3 sampleSchedWeekly (by decide)

/-- C7: no constructible schedule carries frequency biweekly-odd or
biweekly-even (the supported table has only weekly and biweekly), so for
constructed schedules the alternating-pair exemption in `conflicts` is
vacuous and the test reduces to channel equality plus half-open interval
overlap. -/
theorem C7_no_alternating_frequencies (pa fa pb fb : String) (ya yb : SchedYaml)
    (ta tb : Nat) (a b : Schedule) (ha : mkSchedule pa fa ya ta = Except.ok a)
    (hb : mkSchedule pb fb yb tb = Except.ok b) :
    ((a.freq = "weekly" ∧ a.freq_interval = 1) ∨
     (a.freq = "biweekly" ∧ a.freq_interval = 2)) ∧
    a.freq ≠ "biweekly-odd" ∧ a.freq ≠ "biweekly-even" ∧
    a.conflicts b = ((a.irc == b.irc) &&
      (decide (a.meeting_start < b.meeting_end) &&
       decide (b.meeting_start < a.meeting_end))) := by
  obtain ⟨-, hfa⟩ := mkSchedule_ok_valid ha
  obtain ⟨-, hfb⟩ := mkSchedule_ok_valid hb
  have ca : (a.freq = "weekly" ∧ a.freq_interval = 1) ∨
      (a.freq = "biweekly" ∧ a.freq_interval = 2) := by
    unfold supported_frequencies at hfa
    split_ifs at hfa with h1 h2
    · injection hfa with h
      exact Or.inl ⟨h1, h.symm⟩
    · injection hfa with h
      exact Or.inr ⟨h2, h.symm⟩
  have halt : ((a.freq == "biweekly-odd" && b.freq == "biweekly-even") ||
      (a.freq == "biweekly-even" && b.freq == "biweekly-odd")) = false := by
    have h1 : (a.freq == "biweekly-odd") = false := by
      rcases ca with ⟨h, -⟩ | ⟨h, -⟩ <;> rw [h] <;> decide
    have h2 : (a.freq == "biweekly-even") = false := by
      rcases ca with ⟨h, -⟩ | ⟨h, -⟩ <;> rw [h] <;> decide
    rw [h1, h2]
    simp
  have hne1 : a.freq ≠ "biweekly-odd" := by
    rcases ca with ⟨h, -⟩ | ⟨h, -⟩ <;> rw [h] <;> decide
  have hne2 : a.freq ≠ "biweekly-even" := by
    rcases ca with ⟨h, -⟩ | ⟨h, -⟩ <;> rw [h] <;> decide
  refine ⟨ca, hne1, hne2, ?_⟩
  unfold Schedule.conflicts
  rw [halt]
  simp

/-- Witness for C7 at a concrete constructed pair (the sample weekly
schedule against itself). -/
theorem C7_no_alternating_frequencies_witness :
    ((sampleSchedWeekly.freq = "weekly" ∧ sampleSchedWeekly.freq_interval = 1) ∨
     (sampleSchedWeekly.freq = "biweekly" ∧ sampleSchedWeekly.freq_interval = 2)) ∧
    sampleSchedWeekly.freq ≠ "biweekly-odd" ∧ sampleSchedWeekly.freq ≠ "biweekly-even" ∧
    sampleSchedWeekly.conflicts sampleSchedWeekly
      = ((sampleSchedWeekly.irc == sampleSchedWeekly.irc) &&
        (decide (sampleSchedWeekly.meeting_start < sampleSchedWeekly.meeting_end) &&
         decide (sampleSchedWeekly.meeting_start < sampleSchedWeekly.meeting_end))) :=
  C7_no_alternating_frequencies "p" "f" "p" "f" sampleYamlWeekly sampleYamlWeekly 3 3
    sampleSchedWeekly sampleSchedWeekly (by decide) (by decide)

/-- The cases in which Schedule construction actually fails: a mandatory
field (time, day, irc, frequency) absent; time, start_date or duration
present but unparseable; frequency not in the supported table; or the
sanitized day name not a weekday.  Positivity of the duration is NOT
among them: int() accepts any integer. -/
def constructionFails (y : SchedYaml) : Prop :=
  y.time = none ∨ y.time = some none ∨ y.day = none ∨ y.irc = none ∨ y.frequency = none ∨
  (∃ fr, y.frequency = some fr ∧ supported_frequencies fr = none) ∨
  y.start_date = some none ∨ y.duration = some none ∨
  (∃ d0, y.day = some d0 ∧ WEEKDAYS (sanitizeDay d0) = none)

/-- C5 counterexample: the claim's list of failure cases is wrong in both
directions.  A duration of -5 is present and not a positive integer, so
by the claim construction should fail, yet it succeeds (int() never
checks the sign); and a present-but-unparseable time is not in the
claim's list, so by the claim construction should succeed, yet it raises
the strptime ValueError. -/
theorem C5_validation_counterexample :
    mkSchedule "p" "f"
        (SchedYaml.mk (some (some (TimeHM.mk 12 0))) (some "monday") (some "#chan")
          (some "weekly") none (some (some (-5)))) 0
      = Except.ok (Schedule.ofFields "p" "f" (TimeHM.mk 12 0) "Monday" "#chan" "weekly"
          1 0 (-5)) ∧
    mkSchedule "p" "f"
        (SchedYaml.mk (some none) (some "monday") (some "#chan") (some "weekly") none none) 0
      = Except.error SchedErr.badTime :=
  ⟨by rfl, by rfl⟩

/-- C5 as amended: construction fails exactly in the cases of
`constructionFails` (the claim's list, plus unparseable time, and with
the positivity requirement on duration dropped), and a record missing
the irc field, with time present and parseable and day present, fails
with the KeyError naming irc. -/
theorem C5_validation (p f : String) (y : SchedYaml) (today : Nat) :
    ((∃ e, mkSchedule p f y today = Except.error e) ↔ constructionFails y) ∧
    (∀ t d0, y.time = some (some t) → y.day = some d0 → y.irc = none →
      mkSchedule p f y today = Except.error (SchedErr.keyError "irc")) := by
  constructor
  · rcases y with ⟨ty, dy, iy, fy, sy, uy⟩
    rcases ty with _ | (_ | t) <;> rcases dy with _ | d0 <;> rcases iy with _ | irc0 <;>
      rcases fy with _ | fr0 <;> rcases sy with _ | (_ | sd0) <;>
      rcases uy with _ | (_ | du0) <;>
      simp [mkSchedule, constructionFails]
    all_goals (rcases hsf : supported_frequencies fr0 with _ | iv0 <;> simp [hsf])
    all_goals (rcases hwd : WEEKDAYS (sanitizeDay d0) with _ | w0 <;> simp [hwd])
  · intro t0 d0 h1 h2 h3
    simp only [mkSchedule, h1, h2, h3]

/-- Witness for C5's amended theorem: a record missing irc fails with the
KeyError naming irc. -/
theorem C5_validation_witness :
    mkSchedule "p" "f"
        (SchedYaml.mk (some (some (TimeHM.mk 12 0))) (some "monday") none (some "weekly")
          none none) 0
      = Except.error (SchedErr.keyError "irc") :=
  (C5_validation "p" "f"
      (SchedYaml.mk (some (some (TimeHM.mk 12 0))) (some "monday") none (some "weekly")
        none none) 0).2
    (TimeHM.mk 12 0) "monday" rfl rfl rfl

/-- The projection window length of check_for_meeting_conflicts:
365 days, in minutes. -/
def YEAR_MINUTES : Int := 525600

/-- `rrule(WEEKLY, dtstart=next, interval=k).between(wstart, wend,
inc=True)` with step = k weeks in minutes: the ascending list of
instants next, next + step, next + 2*step, ... that lie in the closed
window [wstart, wend]. -/
def expandOccurrences (next : Int) (step : Nat) (wstart wend : Int) : List Int :=
  ((List.range (if next ≤ wend then (wend - next).toNat / step + 1 else 0)).map
    (fun k : Nat => next + (k : Int) * (step : Int))).filter (fun o => wstart ≤ o)

/-- The occurrence list is exactly the arithmetic progression
intersected with the closed window. -/
theorem mem_expandOccurrences (next wstart wend : Int) (step : Nat) (hstep : 0 < step)
    (o : Int) :
    o ∈ expandOccurrences next step wstart wend ↔
      ∃ k : Nat, o = next + (k : Int) * (step : Int) ∧ wstart ≤ o ∧ o ≤ wend := by
  unfold expandOccurrences
  simp only [List.mem_filter, List.mem_map, List.mem_range, decide_eq_true_eq]
  constructor
  · rintro ⟨⟨k, hk, rfl⟩, hge⟩
    by_cases hle : next ≤ wend
    · rw [if_pos hle] at hk
      have hk2 : k * step ≤ (wend - next).toNat :=
        (Nat.le_div_iff_mul_le hstep).mp (Nat.lt_succ_iff.mp hk)
      obtain ⟨m, hm⟩ : ∃ m : Nat, m = k * step := ⟨_, rfl⟩
      rw [← hm] at hk2
      refine ⟨k, rfl, hge, ?_⟩
      rw [show (k : Int) * (step : Int) = ((m : Nat) : Int) by rw [hm]; push_cast; ring]
      omega
    · rw [if_neg hle] at hk
      exact (Nat.not_lt_zero k hk).elim
  · rintro ⟨k, rfl, hge, hle2⟩
    obtain ⟨m, hm⟩ : ∃ m : Nat, m = k * step := ⟨_, rfl⟩
    have hmi : (k : Int) * (step : Int) = ((m : Nat) : Int) := by rw [hm]; push_cast; ring
    rw [hmi] at hle2
    have hle : next ≤ wend := by omega
    refine ⟨⟨k, ?_, by rw [hmi]⟩, hge⟩
    rw [if_pos hle]
    have h1 : m ≤ (wend - next).toNat := by omega
    have h2 : k ≤ (wend - next).toNat / step :=
      (Nat.le_div_iff_mul_le hstep).mpr (hm ▸ h1)
    exact Nat.lt_succ_of_le h2

/-- C6 counterexample: the occurrence-count clause of the claim fails as
stated.  A biweekly expansion over an N = 2 week window whose first
occurrence sits exactly on the window start yields 2 = N occurrences
(the claim says never N), and when the first occurrence lies beyond the
window the count is 0, outside the claimed range of one around the
half-window count (for N = 4 weeks that range is 1..3). -/
theorem C6_expansion_counterexample :
    (expandOccurrences 0 20160 0 (2 * 10080)).length = 2 ∧
    (expandOccurrences (5 * 20160) 20160 0 (4 * 10080)).length = 0 :=
  ⟨rfl, rfl⟩

/-- C6 as amended: (1) expansion yields exactly the instants
next_occurrence + k * (7 days * freq_interval) that lie in the closed
window, for natural k, both bounds inclusive; (2) the biweekly count
clause holds for windows of N >= 3 weeks whose first occurrence lies
within the window's first period (two weeks): the count is within one of
the rounded-up half-window count and is never N. -/
theorem C6_expansion :
    (∀ (s : Schedule) (wstart wend o : Int), 0 < s.freq_interval →
      (o ∈ expandOccurrences s.next_occurrence (s.freq_interval * 10080) wstart wend ↔
        ∃ k : Nat, o = s.next_occurrence + (k : Int) * ((s.freq_interval : Int) * 10080) ∧
          wstart ≤ o ∧ o ≤ wend)) ∧
    (∀ (next wstart : Int) (N : Nat), 3 ≤ N → wstart ≤ next → next < wstart + 20160 →
      ((N + 1) / 2 - 1
          ≤ (expandOccurrences next 20160 wstart (wstart + (N : Int) * 10080)).length ∧
       (expandOccurrences next 20160 wstart (wstart + (N : Int) * 10080)).length
          ≤ (N + 1) / 2 + 1 ∧
       (expandOccurrences next 20160 wstart (wstart + (N : Int) * 10080)).length ≠ N)) := by
  constructor
  · intro s wstart wend o hfi
    rw [mem_expandOccurrences _ _ _ _ (by positivity)]
    constructor <;> rintro ⟨k, hk, h1, h2⟩ <;>
      exact ⟨k, by rw [hk]; push_cast; ring, h1, h2⟩
  · intro next wstart N hN h1 h2
    have hle : next ≤ wstart + (N : Int) * 10080 := by omega
    have hlen : (expandOccurrences next 20160 wstart (wstart + (N : Int) * 10080)).length
        = (wstart + (N : Int) * 10080 - next).toNat / 20160 + 1 := by
      unfold expandOccurrences
      rw [if_pos hle, List.filter_eq_self.mpr]
      · simp
      · intro o ho
        simp only [List.mem_map, List.mem_range] at ho
        obtain ⟨k, -, rfl⟩ := ho
        simp only [decide_eq_true_eq]
        have : (0 : Int) ≤ (k : Int) * ((20160 : Nat) : Int) := by positivity
        omega
    rw [hlen]
    omega

/-- Witness for C6's amended theorem: the weekly sample schedule's next
occurrence belongs to its own expansion over [0, 20000], and a biweekly
expansion over a 5-week window starting at its first occurrence has 3
occurrences, within one of 3 = (5+1)/2 and different from 5. -/
theorem C6_expansion_witness :
    sampleSchedWeekly.next_occurrence
        ∈ expandOccurrences sampleSchedWeekly.next_occurrence
          (sampleSchedWeekly.freq_interval * 10080) 0 20000 ∧
    ((5 + 1) / 2 - 1 ≤ (expandOccurrences 0 20160 0 (0 + (5 : Int) * 10080)).length ∧
     (expandOccurrences 0 20160 0 (0 + (5 : Int) * 10080)).length ≤ (5 + 1) / 2 + 1 ∧
     (expandOccurrences 0 20160 0 (0 + (5 : Int) * 10080)).length ≠ 5) :=
  ⟨(C6_expansion.1 sampleSchedWeekly 0 20000 sampleSchedWeekly.next_occurrence
      (by decide)).mpr ⟨0, by push_cast; ring, by decide, by decide⟩,
   C6_expansion.2 0 0 5 (by omega) (by omega) (by omega)⟩

/-- The per-schedule expansion step of `check_for_meeting_conflicts`
(lines 230-239): occurrences of one schedule over the year window
starting at `now`, each wrapped in a MeetingInstance carrying the owning
meeting's project and the schedule's duration. -/
def instancesOfSchedule (project : String) (s : Schedule) (now : Int) :
    List MeetingInstance :=
  (expandOccurrences s.next_occurrence (s.freq_interval * 10080) now
      (now + YEAR_MINUTES)).map
    (fun o => mkMeetingInstance project o s.duration)

/-- All (channel, instance) pairs in the traversal order of the source's
nested loops: meetings in order, their schedules in order, occurrences
in ascending order. -/
def flatInstances (meetings : List Meeting) (now : Int) :
    List (String × MeetingInstance) :=
  meetings.flatMap (fun m => m.schedules.flatMap (fun s =>
    (instancesOfSchedule m.project s now).map (fun inst => (s.irc, inst))))

/-- `allinstances[schedule.irc].append(...)` on a defaultdict: append the
instance to the entry of its channel, creating the entry at the end when
the channel is new (Python dicts iterate in key insertion order, which
this association list preserves). -/
def insertInstance : List (String × List MeetingInstance) → String → MeetingInstance →
    List (String × List MeetingInstance)
  | [], c, inst => [(c, [inst])]
  | (c2, xs) :: rest, c, inst =>
    if c2 = c then (c2, xs ++ [inst]) :: rest
    else (c2, xs) :: insertInstance rest c inst

/-- The grouping loop of `check_for_meeting_conflicts`: fold the flat
traversal into the per-channel association list. -/
def groupInstances (l : List (String × MeetingInstance)) :
    List (String × List MeetingInstance) :=
  l.foldl (fun gs p => insertInstance gs p.1 p.2) []

/-- The `for i / for j in range(i+1, ...)` scan inside one channel:
return the first pair (in i-then-j order) whose intervals overlap, like
the source's raise terminating both loops. -/
def firstOverlap : List MeetingInstance → Option (MeetingInstance × MeetingInstance)
  | [] => none
  | x :: rest =>
    match rest.find? (fun y => overlapsInst x y) with
    | some y => some (x, y)
    | none => firstOverlap rest

/-- The outer `for irc_channel in allinstances` loop: first conflicting
pair over the channels in insertion order. -/
def checkConflicts :
    List (String × List MeetingInstance) → Option (MeetingInstance × MeetingInstance)
  | [] => none
  | (_, xs) :: rest =>
    match firstOverlap xs with
    | some pq => some pq
    | none => checkConflicts rest

/-- `check_for_meeting_conflicts(meetings)` (lines 219-250), with the
ambient `datetime.now()` passed explicitly as `now`: `some (a, b)`
models raising MeetingConflictError for the pair (a, b), `none` models
returning without error. -/
def check_for_meeting_conflicts (meetings : List Meeting) (now : Int) :
    Option (MeetingInstance × MeetingInstance) :=
  checkConflicts (groupInstances (flatInstances meetings now))

/-- All ordered pairs (i-th, j-th) with i < j of one channel list, in
the scan order of the source's two nested index loops. -/
def pairsOf : List MeetingInstance → List (MeetingInstance × MeetingInstance)
  | [] => []
  | x :: rest => rest.map (fun y => (x, y)) ++ pairsOf rest

/-- All pairs the detector scans, in channel-then-pair order. -/
def scanPairs (gs : List (String × List MeetingInstance)) :
    List (MeetingInstance × MeetingInstance) :=
  gs.flatMap (fun g => pairsOf g.2)

/-- `lookupG c gs`: the entry of channel c in the association list. -/
def lookupG (c : String) : List (String × List MeetingInstance) → Option (List MeetingInstance)
  | [] => none
  | (c2, xs) :: rest => if c2 = c then some xs else lookupG c rest

theorem find?_eq_head?_filter {α : Type _} (p : α → Bool) (l : List α) :
    l.find? p = (l.filter p).head? := by
  induction l with
  | nil => rfl
  | cons x xs ih =>
    by_cases h : p x
    · rw [List.find?_cons_of_pos _ h, List.filter_cons_of_pos h, List.head?_cons]
    · rw [List.find?_cons_of_neg _ h, List.filter_cons_of_neg h, ih]

/-- The inner two-index scan returns the head of the filtered pair list. -/
theorem firstOverlap_eq (xs : List MeetingInstance) :
    firstOverlap xs
      = ((pairsOf xs).filter (fun pq => overlapsInst pq.1 pq.2)).head? := by
  induction xs with
  | nil => rfl
  | cons x rest ih =>
    have hcomp : ((fun pq : MeetingInstance × MeetingInstance => overlapsInst pq.1 pq.2)
        ∘ (fun y => (x, y))) = (fun y => overlapsInst x y) := rfl
    simp only [firstOverlap, find?_eq_head?_filter, pairsOf, List.filter_append,
      List.head?_append, List.filter_map, hcomp, List.head?_map]
    cases hfind : (rest.filter (fun y => overlapsInst x y)).head? with
    | none => simp [ih]
    | some y => simp

/-- The channel loop returns the head of the filtered scan-order pair
list. -/
theorem checkConflicts_eq (gs : List (String × List MeetingInstance)) :
    checkConflicts gs
      = ((scanPairs gs).filter (fun pq => overlapsInst pq.1 pq.2)).head? := by
  induction gs with
  | nil => rfl
  | cons g rest ih =>
    obtain ⟨c, xs⟩ := g
    simp only [checkConflicts, scanPairs, List.flatMap_cons, List.filter_append,
      List.head?_append, firstOverlap_eq]
    cases hx : ((pairsOf xs).filter (fun pq => overlapsInst pq.1 pq.2)).head? with
    | none => simpa [scanPairs] using ih
    | some pq => simp

/-- Pair membership in the scan-order list is exactly a two-element
sublist. -/
theorem pairsOf_mem (xs : List MeetingInstance) (a b : MeetingInstance) :
    (a, b) ∈ pairsOf xs ↔ [a, b].Sublist xs := by
  induction xs with
  | nil => simp [pairsOf]
  | cons x rest ih =>
    simp only [pairsOf, List.mem_append, List.mem_map, ih]
    constructor
    · rintro (⟨y, hy, heq⟩ | hsub)
      · injection heq with h1 h2
        subst h1
        subst h2
        exact List.Sublist.cons₂ x (List.singleton_sublist.mpr hy)
      · exact hsub.cons x
    · intro hsub
      cases hsub with
      | cons _ h => exact Or.inr h
      | cons₂ _ h => exact Or.inl ⟨b, List.singleton_sublist.mp h, rfl⟩

theorem lookupG_insert_same (gs : List (String × List MeetingInstance)) (c : String)
    (inst : MeetingInstance) :
    lookupG c (insertInstance gs c inst) = some ((lookupG c gs).getD [] ++ [inst]) := by
  induction gs with
  | nil => simp [insertInstance, lookupG]
  | cons g rest ih =>
    obtain ⟨c2, xs⟩ := g
    by_cases h : c2 = c
    · subst h
      simp [insertInstance, lookupG]
    · simp [insertInstance, lookupG, h, ih]

theorem lookupG_insert_other (gs : List (String × List MeetingInstance)) (c c2 : String)
    (inst : MeetingInstance) (h : c2 ≠ c) :
    lookupG c (insertInstance gs c2 inst) = lookupG c gs := by
  induction gs with
  | nil => simp [insertInstance, lookupG, h]
  | cons g rest ih =>
    obtain ⟨c3, xs⟩ := g
    by_cases h2 : c3 = c2
    · subst h2
      simp [insertInstance, lookupG, h]
    · by_cases h3 : c3 = c
      · subst h3
        simp [insertInstance, lookupG, h2, ih]
      · simp [insertInstance, lookupG, h2, h3, ih]

/-- What the grouping fold stores under each channel, for an arbitrary
starting accumulator. -/
theorem lookupG_groupFold (l : List (String × MeetingInstance)) :
    ∀ (gs : List (String × List MeetingInstance)) (c : String),
      lookupG c (l.foldl (fun gs p => insertInstance gs p.1 p.2) gs)
        = match lookupG c gs with
          | some xs => some (xs ++ (l.filter (fun p => p.1 = c)).map Prod.snd)
          | none =>
            if c ∈ l.map Prod.fst then
              some ((l.filter (fun p => p.1 = c)).map Prod.snd)
            else none := by
  induction l with
  | nil =>
    intro gs c
    simp only [List.foldl_nil]
    cases hg : lookupG c gs <;> simp [hg]
  | cons p rest ih =>
    intro gs c
    obtain ⟨c0, i0⟩ := p
    rw [List.foldl_cons, ih]
    by_cases h : c0 = c
    · subst h
      rw [lookupG_insert_same]
      cases hg : lookupG c0 gs <;>
        simp [hg, List.filter_cons, List.append_assoc]
    · rw [lookupG_insert_other _ _ _ _ h]
      cases hg : lookupG c gs <;>
        by_cases hm : c ∈ rest.map Prod.fst <;>
          simp [hg, hm, List.filter_cons, h, Ne.symm h]

/-- The grouped association list holds, under each channel that occurs,
exactly that channel's instances in traversal order. -/
theorem lookupG_groupInstances (l : List (String × MeetingInstance)) (c : String) :
    lookupG c (groupInstances l)
      = if c ∈ l.map Prod.fst then
          some ((l.filter (fun p => p.1 = c)).map Prod.snd)
        else none := by
  have h := lookupG_groupFold l [] c
  simpa [groupInstances, lookupG] using h

theorem keys_insertInstance (gs : List (String × List MeetingInstance)) (c : String)
    (inst : MeetingInstance) :
    (insertInstance gs c inst).map Prod.fst
      = if c ∈ gs.map Prod.fst then gs.map Prod.fst else gs.map Prod.fst ++ [c] := by
  induction gs with
  | nil => simp [insertInstance]
  | cons g rest ih =>
    obtain ⟨c2, xs⟩ := g
    by_cases h : c2 = c
    · subst h
      simp [insertInstance]
    · by_cases hm : c ∈ rest.map Prod.fst <;>
        simp [insertInstance, h, ih, Ne.symm h, hm]

theorem nodup_keys_groupFold (l : List (String × MeetingInstance)) :
    ∀ (gs : List (String × List MeetingInstance)), (gs.map Prod.fst).Nodup →
      (((l.foldl (fun gs p => insertInstance gs p.1 p.2) gs).map Prod.fst)).Nodup := by
  induction l with
  | nil => intro gs h; exact h
  | cons p rest ih =>
    intro gs h
    rw [List.foldl_cons]
    apply ih
    rw [keys_insertInstance]
    by_cases hm : p.1 ∈ gs.map Prod.fst
    · rw [if_pos hm]
      exact h
    · rw [if_neg hm]
      refine List.nodup_append.mpr ⟨h, List.nodup_singleton _, ?_⟩
      intro a ha hb
      have : a = p.1 := by simpa using hb
      subst this
      exact hm ha

theorem mem_lookupG {gs : List (String × List MeetingInstance)} {c : String}
    {xs : List MeetingInstance} (hnd : (gs.map Prod.fst).Nodup) (h : (c, xs) ∈ gs) :
    lookupG c gs = some xs := by
  induction gs with
  | nil => cases h
  | cons g rest ih =>
    obtain ⟨c2, ys⟩ := g
    rcases List.mem_cons.mp h with heq | hmem
    · injection heq with h1 h2
      subst h1
      subst h2
      simp [lookupG]
    · have hnd2 : c2 ∉ rest.map Prod.fst ∧ (rest.map Prod.fst).Nodup := by
        rw [List.map_cons, List.nodup_cons] at hnd
        exact hnd
      have hc : c2 ≠ c := by
        intro hcc
        subst hcc
        exact hnd2.1 (List.mem_map.mpr ⟨(c2, xs), hmem, rfl⟩)
      rw [lookupG, if_neg hc]
      exact ih hnd2.2 hmem

theorem lookupG_mem (gs : List (String × List MeetingInstance)) (c : String)
    (xs : List MeetingInstance) (h : lookupG c gs = some xs) : (c, xs) ∈ gs := by
  induction gs with
  | nil => cases h
  | cons g rest ih =>
    obtain ⟨c2, ys⟩ := g
    rw [lookupG] at h
    by_cases hc : c2 = c
    · rw [if_pos hc] at h
      injection h with h
      subst hc
      subst h
      exact List.mem_cons_self _ _
    · rw [if_neg hc] at h
      exact List.mem_cons_of_mem _ (ih h)

/-- A two-element sublist of one channel's grouped list lifts back to a
same-channel two-element sublist of the flat traversal. -/
theorem sublist_pair_of_filter {l : List (String × MeetingInstance)} {c : String}
    {a b : MeetingInstance}
    (h : [a, b].Sublist ((l.filter (fun p => p.1 = c)).map Prod.snd)) :
    [(c, a), (c, b)].Sublist l := by
  rw [List.sublist_map_iff] at h
  obtain ⟨l2, hsub, heq⟩ := h
  have hc : ∀ p ∈ l2, p.1 = c := by
    intro p hp
    have hmem := hsub.subset hp
    have := List.of_mem_filter hmem
    simpa using this
  have hl2 : l2 = [(c, a), (c, b)] := by
    rcases l2 with _ | ⟨p1, _ | ⟨p2, _ | ⟨p3, l4⟩⟩⟩
    · simp at heq
    · simp at heq
    · have h1 := hc p1 (by simp)
      have h2 := hc p2 (by simp)
      simp only [List.map_cons, List.map_nil] at heq
      injection heq with e1 rest1
      injection rest1 with e2 _
      cases p1
      cases p2
      simp_all
    · simp at heq
  rw [hl2] at hsub
  exact hsub.trans (List.filter_sublist _)

/-- A same-channel two-element sublist of the flat traversal projects to
a two-element sublist of that channel's grouped list. -/
theorem sublist_pair_to_filter {l : List (String × MeetingInstance)} {c : String}
    {a b : MeetingInstance} (h : [(c, a), (c, b)].Sublist l) :
    [a, b].Sublist ((l.filter (fun p => p.1 = c)).map Prod.snd) := by
  have h1 : [(c, a), (c, b)].filter (fun p => p.1 = c) = [(c, a), (c, b)] := by simp
  have h2 := h.filter (fun p => decide (p.1 = c))
  rw [h1] at h2
  have h3 := h2.map Prod.snd
  simpa using h3

/-- C1: the conflict check raises exactly when two instances of the same
channel, among those expanded over the one-year window starting at
`now`, overlap under the half-open rule; instances that merely touch at
an endpoint never overlap; and the reported pair is the head of the
channel-then-pair scan-order enumeration filtered by overlap, i.e. the
first conflicting pair encountered, the scan stopping there. -/
theorem C1_conflict_detection (meetings : List Meeting) (now : Int) :
    check_for_meeting_conflicts meetings now
      = ((scanPairs (groupInstances (flatInstances meetings now))).filter
          (fun pq => overlapsInst pq.1 pq.2)).head? ∧
    ((check_for_meeting_conflicts meetings now).isSome = true ↔
      ∃ (c : String) (a b : MeetingInstance),
        [(c, a), (c, b)].Sublist (flatInstances meetings now) ∧
        overlapsInst a b = true) ∧
    (∀ a b : MeetingInstance, a.end_ = b.start ∨ b.end_ = a.start →
      overlapsInst a b = false) := by
  refine ⟨checkConflicts_eq _, ?_, ?_⟩
  · rw [check_for_meeting_conflicts, checkConflicts_eq]
    have hnd : ((groupInstances (flatInstances meetings now)).map Prod.fst).Nodup :=
      nodup_keys_groupFold _ [] (by simp)
    constructor
    · intro hsome
      obtain ⟨pq, hpq⟩ := Option.isSome_iff_exists.mp hsome
      have hmem : pq ∈ (scanPairs (groupInstances (flatInstances meetings now))).filter
          (fun pq => overlapsInst pq.1 pq.2) :=
        List.mem_of_mem_head? (Option.mem_def.mpr hpq)
      rw [List.mem_filter] at hmem
      obtain ⟨hscan, hov⟩ := hmem
      simp only [scanPairs, List.mem_flatMap] at hscan
      obtain ⟨g, hg, hpair⟩ := hscan
      obtain ⟨c, xs⟩ := g
      obtain ⟨a, b⟩ := pq
      rw [pairsOf_mem] at hpair
      have hlk := mem_lookupG hnd hg
      rw [lookupG_groupInstances] at hlk
      by_cases hcm : c ∈ (flatInstances meetings now).map Prod.fst
      · rw [if_pos hcm] at hlk
        injection hlk with hxs
        subst hxs
        exact ⟨c, a, b, sublist_pair_of_filter hpair, by simpa using hov⟩
      · rw [if_neg hcm] at hlk
        cases hlk
    · rintro ⟨c, a, b, hsub, hov⟩
      have hca : (c, a) ∈ flatInstances meetings now := hsub.subset (by simp)
      have hcm : c ∈ (flatInstances meetings now).map Prod.fst :=
        List.mem_map.mpr ⟨(c, a), hca, rfl⟩
      have hlk := lookupG_groupInstances (flatInstances meetings now) c
      rw [if_pos hcm] at hlk
      have hgmem := lookupG_mem _ _ _ hlk
      have hpair : (a, b) ∈ pairsOf
          (((flatInstances meetings now).filter (fun p => p.1 = c)).map Prod.snd) :=
        (pairsOf_mem _ _ _).mpr (sublist_pair_to_filter hsub)
      have hfmem : (a, b) ∈ (scanPairs (groupInstances (flatInstances meetings now))).filter
          (fun pq => overlapsInst pq.1 pq.2) := by
        rw [List.mem_filter]
        refine ⟨?_, by simpa using hov⟩
        simp only [scanPairs, List.mem_flatMap]
        exact ⟨(c, ((flatInstances meetings now).filter (fun p => p.1 = c)).map Prod.snd),
          hgmem, hpair⟩
      rcases hfl : (scanPairs (groupInstances (flatInstances meetings now))).filter
          (fun pq => overlapsInst pq.1 pq.2) with _ | ⟨q, qs⟩
      · rw [hfl] at hfmem
        cases hfmem
      · rw [hfl]
        rfl
  · rintro a b (h | h) <;> simp [overlapsInst, h]

/-- C10: every instance produced for a schedule ends exactly duration
minutes after it starts and carries the owning meeting's project, so two
instances of the same schedule span intervals of the same length. -/
theorem C10_instance_shape (proj : String) (s : Schedule) (now : Int)
    (inst inst2 : MeetingInstance)
    (h : inst ∈ instancesOfSchedule proj s now)
    (h2 : inst2 ∈ instancesOfSchedule proj s now) :
    inst.end_ = inst.start + s.duration ∧ inst.project = proj ∧
    inst.end_ - inst.start = inst2.end_ - inst2.start := by
  unfold instancesOfSchedule at h h2
  obtain ⟨o, -, rfl⟩ := List.mem_map.mp h
  obtain ⟨o2, -, rfl⟩ := List.mem_map.mp h2
  refine ⟨rfl, rfl, ?_⟩
  simp only [mkMeetingInstance]
  ring

/-- Witness for C10: the first two occurrences of the weekly sample
schedule over the year window from 0. -/
theorem C10_instance_shape_witness :
    (mkMeetingInstance "p" sampleSchedWeekly.next_occurrence 60).end_
        = (mkMeetingInstance "p" sampleSchedWeekly.next_occurrence 60).start
          + sampleSchedWeekly.duration ∧
    (mkMeetingInstance "p" sampleSchedWeekly.next_occurrence 60).project = "p" ∧
    (mkMeetingInstance "p" sampleSchedWeekly.next_occurrence 60).end_
        - (mkMeetingInstance "p" sampleSchedWeekly.next_occurrence 60).start
      = (mkMeetingInstance "p" (sampleSchedWeekly.next_occurrence + 10080) 60).end_
        - (mkMeetingInstance "p" (sampleSchedWeekly.next_occurrence + 10080) 60).start :=
  C10_instance_shape "p" sampleSchedWeekly 0
    (mkMeetingInstance "p" sampleSchedWeekly.next_occurrence 60)
    (mkMeetingInstance "p" (sampleSchedWeekly.next_occurrence + 10080) 60)
    (by decide) (by decide)

end Yaml2ical
